import Mathlib

/-!
Verification development for the irregular-tabular-extraction engine of the
ScrapingProject repository (src/baseball_scraper.py and src/data_cleaner.py).

The Python source is shallowly embedded: each relevant Python function becomes
an executable Lean definition over explicit data (cells, rows, trackers,
records, dataframes).  Python strings are Lean `String`; the handful of
Python string-library operations the source uses (strip, lower, split on a
separator, substring containment, single-character replace) are implemented
structurally on `List Char` so that every definition evaluates inside the
kernel.  Missing values (`None` / `NaN`) are `Option` / an explicit `Val.na`
constructor; code that can raise a Python exception returns `Except`.
-/

/-! ## String primitives (models of the Python string operations used) -/

/-- Model of Python `str.isPrefixOf` behaviour on character lists:
`isPrefixCh pat l` is true when `pat` is a prefix of `l`. -/
def isPrefixCh : List Char → List Char → Bool
  | [], _ => true
  | _ :: _, [] => false
  | p :: ps, c :: cs => p = c && isPrefixCh ps cs

/-- Substring containment on character lists: true when `pat` occurs
contiguously in the list (models the Python `in` operator on strings). -/
def containsCh (pat : List Char) : List Char → Bool
  | [] => isPrefixCh pat []
  | c :: cs => isPrefixCh pat (c :: cs) || containsCh pat cs

/-- Model of `pat in s` for Python strings. -/
def pyContains (s pat : String) : Bool :=
  containsCh pat.data s.data

/-- Whitespace test used by `str.strip` (the whitespace characters that occur
in the scraped data). -/
def isSpaceCh (c : Char) : Bool :=
  c = ' ' || c = '\t' || c = '\n' || c = '\r'

/-- Model of Python `str.strip()`: drop whitespace from both ends. -/
def pyStrip (s : String) : String :=
  String.mk (((s.data.dropWhile isSpaceCh).reverse.dropWhile isSpaceCh).reverse)

/-- ASCII lower-casing of a single character (the scraped captions are
ASCII). -/
def lowerCh (c : Char) : Char :=
  if 'A' ≤ c ∧ c ≤ 'Z' then Char.ofNat (c.toNat + 32) else c

/-- Model of Python `str.lower()`. -/
def pyLower (s : String) : String :=
  String.mk (s.data.map lowerCh)

/-- Split a character list on a separator character; always returns at least
one (possibly empty) group, like Python `str.split(sep)`. -/
def splitOnCharCh (sep : Char) : List Char → List (List Char)
  | [] => [[]]
  | c :: cs =>
    let r := splitOnCharCh sep cs
    if c = sep then [] :: r
    else
      match r with
      | [] => [[c]]
      | g :: gs => (c :: g) :: gs

/-- Model of Python `s.split(sep)` for a one-character separator (the source
only ever splits on a comma). -/
def splitPy (s : String) (sep : Char) : List String :=
  (splitOnCharCh sep s.data).map String.mk

/-- Replace every occurrence of a single character by a replacement string
(models the `str.replace` calls of the source, whose patterns are all one
character: a comma, a double quote, or the one-half glyph). -/
def replaceCharCh (sep : Char) (repl : List Char) : List Char → List Char
  | [] => []
  | c :: cs => if c = sep then repl ++ replaceCharCh sep repl cs
               else c :: replaceCharCh sep repl cs

/-- Model of Python `s.replace(sep, repl)` for a one-character pattern. -/
def pyReplaceChar (s : String) (sep : Char) (repl : String) : String :=
  String.mk (replaceCharCh sep repl.data s.data)

/-- Model of Python `str.isdigit()`: nonempty and every character a decimal
digit. -/
def pyIsDigit (s : String) : Bool :=
  !(s.data = []) && s.data.all Char.isDigit

/-- Model of Python `str.isnumeric()` for the decimal-digit strings that occur
in this data (unicode numerics other than ASCII digits are not modelled). -/
def pyIsNumeric (s : String) : Bool :=
  !(s.data = []) && s.data.all Char.isDigit

/-- Value of a decimal-digit string, as `int()` computes it on digit input. -/
def strToNat (s : String) : Nat :=
  s.data.foldl (fun n c => n * 10 + (c.toNat - 48)) 0

/-- Truthiness of an optional string, as Python evaluates
`cell.get_attribute("rowspan")` in a boolean context: present and nonempty. -/
def optTruthy : Option String → Bool
  | none => false
  | some s => decide (s ≠ "")

/-! ## Scraper data model (baseball_scraper.py, get_data) -/

/-- A table cell as the DOM collaborator exposes it to `get_data`: its text,
its `class` attribute (the empty string when absent, mirroring
`cell.get_attribute("class") or ""`), and its optional `rowspan` attribute. -/
structure Cell where
  text : String
  cls : String
  rowspan : Option String
deriving DecidableEq, Repr

/-- A record assembled from one data row: the Python dict `row_data`,
modelled as a lookup function from header name to optionally present value. -/
def RowRecord : Type := String → Option String

/-- One entry of `rowspan_tracker`: the carried value and the remaining
count.  `remaining` is an `Int` because the source computes
`int(rowspan) - 1`, which is negative for `rowspan = "0"`. -/
structure RowspanEntry where
  value : String
  remaining : Int
deriving DecidableEq, Repr

/-- The `rowspan_tracker` dict, keyed by header position. -/
def Tracker : Type := Nat → Option RowspanEntry

/-- Dict update `row_data[key] = v`. -/
def recSet (r : RowRecord) (key : String) (v : String) : RowRecord :=
  fun k => if k = key then some v else r k

/-- Dict update `rowspan_tracker[i] = e`. -/
def trSet (tr : Tracker) (i : Nat) (e : RowspanEntry) : Tracker :=
  fun j => if j = i then some e else tr j

/-- The guard `header_index in rowspan_tracker and
rowspan_tracker[header_index]["remaining"] > 0`. -/
def trackerLive (tr : Tracker) (i : Nat) : Bool :=
  match tr i with
  | some e => decide (0 < e.remaining)
  | none => false

/-- The carried value read in the live-tracker branch. -/
def trackerValue (tr : Tracker) (i : Nat) : String :=
  match tr i with
  | some e => e.value
  | none => ""

/-- The in-place decrement `rowspan_tracker[header_index]["remaining"] -= 1`. -/
def trDec (tr : Tracker) (i : Nat) : Tracker :=
  match tr i with
  | some e => trSet tr i ⟨e.value, e.remaining - 1⟩
  | none => tr

/-- Installing a new tracker entry while consuming a physical cell
(baseball_scraper.py lines 160 to 165): when the cell has a digit `rowspan`
attribute, store its trimmed text with `remaining = int(rowspan) - 1`. -/
def trInstall (tr : Tracker) (hIdx : Nat) (c : Cell) : Tracker :=
  match c.rowspan with
  | some rs =>
      if pyIsDigit rs then trSet tr hIdx ⟨pyStrip c.text, (strToNat rs : Int) - 1⟩
      else tr
  | none => tr

/-- The cell-consuming tail of one header-position step of the data-row loop
(baseball_scraper.py lines 153 to 169): if the physical-cell cursor is
exhausted, fall back to the previous record; otherwise consume the next cell,
possibly installing a rowspan entry.  Returns the updated record, tracker and
cell cursor. -/
def stepCell (cells : List Cell) (prev : RowRecord) (header : String)
    (hIdx cIdx : Nat) (tr : Tracker) (acc : RowRecord) :
    RowRecord × Tracker × Nat :=
  if cells.length ≤ cIdx then
    (recSet acc header ((prev header).getD ""), tr, cIdx)
  else
    (recSet acc header (pyStrip (cells.getD cIdx ⟨"", "", none⟩).text),
     trInstall tr hIdx (cells.getD cIdx ⟨"", "", none⟩),
     cIdx + 1)

/-- One full header-position step of the data-row loop
(baseball_scraper.py lines 136 to 169): synthetic Division column first, then
a live rowspan entry, then the cell-consuming tail. -/
def stepAt (cells : List Cell) (division : Option String) (prev : RowRecord)
    (header : String) (hIdx cIdx : Nat) (tr : Tracker) (acc : RowRecord) :
    RowRecord × Tracker × Nat :=
  if header = "Division" ∧ optTruthy division = true then
    (recSet acc "Division" (division.getD ""), tr, cIdx)
  else if trackerLive tr hIdx = true then
    (recSet acc header (trackerValue tr hIdx), trDec tr hIdx, cIdx)
  else
    stepCell cells prev header hIdx cIdx tr acc

/-- The data-row assembly loop `while header_index < len(headers)`
(baseball_scraper.py lines 132 to 169), walking the header list with an
independent physical-cell cursor; returns the assembled record and the
updated rowspan tracker. -/
def assembleAux (cells : List Cell) (division : Option String)
    (prev : RowRecord) :
    List String → Nat → Nat → Tracker → RowRecord → RowRecord × Tracker
  | [], _, _, tr, acc => (acc, tr)
  | header :: hs, hIdx, cIdx, tr, acc =>
    let s := stepAt cells division prev header hIdx cIdx tr acc
    assembleAux cells division prev hs (hIdx + 1) s.2.2 s.2.1 s.1

/-- The header-normalization table of baseball_scraper.py lines 18 to 29,
applied as `header_map.get(text, text)`. -/
def header_map (text : String) : String :=
  if text = "Statistic" then "statistic"
  else if text = "Name(s)" then "name"
  else if text = "Team(s)" then "team"
  else if text = "#" then "value"
  else if text = "Top 25" then "top_25"
  else if text = "Team | Roster" then "team_roster"
  else if text = "W" then "wins"
  else if text = "L" then "losses"
  else if text = "WP" then "win_percentage"
  else if text = "GB" then "games_behind"
  else text

/-- The banner-row cell loop (baseball_scraper.py lines 119 to 128), run on
the freshly reset `headers = []` and `current_division = None`: a
row-spanning middle banner whose text contains east or west sets the division
and appends the synthetic `Division` header; any other banner cell appends
its normalized trimmed text; other cells contribute nothing. -/
def bannerAux : List Cell → List String → Option String →
    List String × Option String
  | [], hs, d => (hs, d)
  | c :: cs, hs, d =>
    let text := pyStrip c.text
    if pyContains c.cls "banner middle" && optTruthy c.rowspan then
      if pyContains (pyLower text) "east" || pyContains (pyLower text) "west"
      then bannerAux cs (hs ++ ["Division"]) (some text)
      else bannerAux cs hs d
    else if pyContains c.cls "banner" then
      bannerAux cs (hs ++ [header_map text]) d
    else bannerAux cs hs d

/-- The banner test of line 116: some cell class contains `banner`. -/
def isBanner (cells : List Cell) : Bool :=
  cells.any (fun c => pyContains c.cls "banner")

/-- The per-table traversal state of `get_data`
(baseball_scraper.py lines 103 to 107). -/
structure ScrapeState where
  headers : List String
  division : Option String
  tracker : Tracker
  prev : RowRecord
  dataRows : List RowRecord

/-- Processing one row of the traversal window
(baseball_scraper.py lines 110 to 173): a banner row rebuilds the header list
and division from scratch (leaving the rowspan tracker and previous record
untouched); a data row is assembled into a record that is appended and
becomes the new previous record. -/
def processRow (st : ScrapeState) (cells : List Cell) : ScrapeState :=
  if isBanner cells then
    let p := bannerAux cells [] none
    { st with headers := p.1, division := p.2 }
  else
    let p := assembleAux cells st.division st.prev st.headers 0 0 st.tracker
      (fun _ => none)
    { st with tracker := p.2, prev := p.1, dataRows := st.dataRows ++ [p.1] }

/-- Traversal of the rows strictly between the caption row and the two footer
rows of one table (the window `rows[1 .. len(rows) - 3]` of
baseball_scraper.py line 110), threading the state row by row. -/
def runRows (st : ScrapeState) (rows : List (List Cell)) : ScrapeState :=
  rows.foldl processRow st

/-- The state at the start of one table traversal
(baseball_scraper.py lines 103 to 107): empty headers, no division, empty
tracker, empty previous record, no data rows. -/
def initState : ScrapeState :=
  ⟨[], none, fun _ => none, fun _ => none, []⟩

/-! ## Table classification (baseball_scraper.py) -/

/-- `pitcher_or_hitter` (baseball_scraper.py lines 41 to 47). -/
def pitcher_or_hitter (title subtitle : String) : Option String :=
  if pyContains (pyLower title) "team review" then
    if pyContains (pyLower subtitle) "hitting" then some "hitting"
    else if pyContains (pyLower subtitle) "pitching" then some "pitching"
    else none
  else none

/-- The closed set of semantic table kinds a table can be assigned to. -/
inductive TableKind where
  | hitters
  | pitchers
  | team_standings
  | pitcher_leaderboard
  | hitter_leaderboard
deriving DecidableEq, Repr

/-- The assignment block of `get_data`
(baseball_scraper.py lines 175 and 183 to 197): the content-based review
type is consulted first, then the positional `table_index` fallback; `none`
means the table is assigned to no slot. -/
def classifyTable (title subtitle : String) (tableIndex : Nat) :
    Option TableKind :=
  let review := pitcher_or_hitter title subtitle
  if review = some "pitching" then some TableKind.pitcher_leaderboard
  else if review = some "hitting" then some TableKind.hitter_leaderboard
  else if tableIndex = 0 then some TableKind.hitters
  else if tableIndex = 1 then some TableKind.pitchers
  else if tableIndex = 2 ∧
      pyContains (pyLower title ++ pyLower subtitle) "team standings" = true
  then some TableKind.team_standings
  else none

/-! ## Cleaner data model (data_cleaner.py) -/

/-- A dataframe cell value: missing (`NaN` / `None`), a string, or a number
produced by numeric coercion. -/
inductive Val where
  | na : Val
  | s (v : String) : Val
  | num (q : Rat) : Val
deriving DecidableEq, Repr

/-- `pd.isna` on a cell value. -/
def isNaB : Val → Bool
  | Val.na => true
  | _ => false

/-- `astype(str)` on one cell: a missing value renders as the string `nan`. -/
def valStr : Val → String
  | Val.na => "nan"
  | Val.s v => v
  | Val.num q => toString q

/-- A dataframe: named columns and rows of cell values. -/
structure DFg where
  cols : List String
  rows : List (List Val)
deriving DecidableEq, Repr

/-- Parse an unsigned decimal numeral, integer or with a fractional part
(model of the number grammar `pd.to_numeric` accepts on this data;
scientific notation is not modelled). -/
def parseUnsignedCh (l : List Char) : Option Rat :=
  match splitOnCharCh '.' l with
  | [ip] =>
      if ip ≠ [] ∧ ip.all Char.isDigit then some ((strToNat (String.mk ip) : Rat))
      else none
  | [ip, fp] =>
      if ip.all Char.isDigit ∧ fp.all Char.isDigit ∧ ¬(ip = [] ∧ fp = []) then
        some ((strToNat (String.mk ip) : Rat)
          + (strToNat (String.mk fp) : Rat) / ((10 : Rat) ^ fp.length))
      else none
  | _ => none

/-- Parse an optionally signed decimal numeral. -/
def parseNumeric (s : String) : Option Rat :=
  match s.data with
  | '-' :: rest => (parseUnsignedCh rest).map (fun q => -q)
  | '+' :: rest => parseUnsignedCh rest
  | _ => parseUnsignedCh s.data

/-- `pd.to_numeric(v, errors="coerce")` on one cell: numbers pass through,
parseable strings become numbers, everything else becomes missing. -/
def toNumericVal : Val → Val
  | Val.na => Val.na
  | Val.num q => Val.num q
  | Val.s t =>
      match parseNumeric (pyStrip t) with
      | some q => Val.num q
      | none => Val.na

/-- Column lookup by name; a missing column raises `KeyError`, as pandas
column access does. -/
def colIndex (cols : List String) (c : String) : Except String Nat :=
  match cols.findIdx? (fun x => decide (x = c)) with
  | some i => Except.ok i
  | none => Except.error "KeyError"

/-- `row[c]` on a row Series indexed by `cols`. -/
def rowGet (cols : List String) (row : List Val) (c : String) :
    Except String Val := do
  let i ← colIndex cols c
  pure (row.getD i Val.na)

/-- `row[c] = v` on a row Series indexed by `cols`. -/
def rowSet (cols : List String) (row : List Val) (c : String) (v : Val) :
    Except String (List Val) := do
  let i ← colIndex cols c
  pure (row.set i v)

/-- `fix_misaligned_row` (data_cleaner.py lines 49 to 61): when the
team/roster field is missing or empty and the wins field holds a (non-NaN)
string, shift the fields one position right to left and blank games_behind;
the `East`/`West` branch of the source keeps the row unchanged, as does the
default. -/
def fixRowE (cols : List String) (row : List Val) :
    Except String (List Val) := do
  let tr ← rowGet cols row "team_roster"
  if tr = Val.na ∨ tr = Val.s "" then
    let w ← rowGet cols row "wins"
    match w with
    | Val.s ws =>
        let row1 ← rowSet cols row "team_roster" (Val.s ws)
        let l ← rowGet cols row1 "losses"
        let row2 ← rowSet cols row1 "wins" l
        let wp ← rowGet cols row2 "win_percentage"
        let row3 ← rowSet cols row2 "losses" wp
        let gb ← rowGet cols row3 "games_behind"
        let row4 ← rowSet cols row3 "win_percentage" gb
        rowSet cols row4 "games_behind" Val.na
    | _ => pure row
  else
    pure row

/-- Map a transformation over one column of the row set
(`df[c] = f(df[c])`). -/
def setCol (rows : List (List Val)) (i : Nat) (f : Val → Val) :
    List (List Val) :=
  rows.map (fun r => r.set i (f (r.getD i Val.na)))

/-- `drop_duplicates()` keeping first occurrences, with an accumulator of the
values already seen. -/
def dedupAux {α : Type} [DecidableEq α] : List α → List α → List α
  | _, [] => []
  | seen, x :: xs =>
      if x ∈ seen then dedupAux seen xs
      else x :: dedupAux (x :: seen) xs

/-- `drop_duplicates()` on a row set. -/
def dedupList {α : Type} [DecidableEq α] (l : List α) : List α :=
  dedupAux [] l

/-- The expected standings columns
(data_cleaner.py lines 212 to 220). -/
def team_standings_columns : List String :=
  ["id", "year", "team_roster", "wins", "losses", "win_percentage",
   "games_behind"]

/-- The expected leaderboard columns (data_cleaner.py lines 97 and 221). -/
def leaderboard_columns : List String :=
  ["id", "year", "statistic", "team", "value"]

/-- `clean_team_standings` (data_cleaner.py lines 41 to 86): apply the
misalignment fix row by row, drop rows whose team/roster is purely numeric,
coerce the numeric columns (substituting the one-half glyph in games_behind),
drop rows that fail to coerce wins, losses or win_percentage, deduplicate and
reset the index.  Accessing a column the frame does not have raises, which
the `Except` propagates. -/
def cleanTeamStandingsE (df : DFg) : Except String DFg := do
  let rows1 ← df.rows.mapM (fixRowE df.cols)
  let ti ← colIndex df.cols "team_roster"
  let rows2 := rows1.filter (fun r => !(pyIsNumeric (valStr (r.getD ti Val.na))))
  let wi ← colIndex df.cols "wins"
  let rows3 := setCol rows2 wi toNumericVal
  let li ← colIndex df.cols "losses"
  let rows4 := setCol rows3 li toNumericVal
  let pci ← colIndex df.cols "win_percentage"
  let rows5 := setCol rows4 pci toNumericVal
  let gi ← colIndex df.cols "games_behind"
  let rows6 := setCol rows5 gi
    (fun v => toNumericVal (Val.s (pyReplaceChar (valStr v) '½' ".5")))
  let rows7 := rows6.filter (fun r =>
    !(isNaB (r.getD wi Val.na)) && !(isNaB (r.getD li Val.na)) &&
    !(isNaB (r.getD pci Val.na)))
  pure ⟨df.cols, dedupList rows7⟩

/-- `clean_hitters` (data_cleaner.py lines 13 to 23): drop rows missing name
or team, deduplicate. -/
def cleanHittersE (df : DFg) : Except String DFg := do
  let ni ← colIndex df.cols "name"
  let ti ← colIndex df.cols "team"
  let rows1 := df.rows.filter (fun r =>
    !(isNaB (r.getD ni Val.na)) && !(isNaB (r.getD ti Val.na)))
  pure ⟨df.cols, dedupList rows1⟩

/-- `clean_pitchers` (data_cleaner.py lines 26 to 38): same as hitters plus
an index reset (a no-op in this model). -/
def cleanPitchersE (df : DFg) : Except String DFg := do
  let ni ← colIndex df.cols "name"
  let ti ← colIndex df.cols "team"
  let rows1 := df.rows.filter (fun r =>
    !(isNaB (r.getD ni Val.na)) && !(isNaB (r.getD ti Val.na)))
  pure ⟨df.cols, dedupList rows1⟩

/-- The value coercion of `clean_leaderboard`
(data_cleaner.py lines 117 to 125): render as string, remove commas, remove
double quotes, trim whitespace, then `to_numeric` with coercion to missing on
failure. -/
def coerceValue (s : String) : Val :=
  match parseNumeric (pyStrip (pyReplaceChar (pyReplaceChar s ',' "") '"' "")) with
  | some q => Val.num q
  | none => Val.na

/-- `clean_leaderboard` (data_cleaner.py lines 89 to 135): an empty frame is
returned unchanged; otherwise keep the first five columns and relabel them
(when fewer than five columns are present the relabeling raises and the
truncated frame is returned as is, mirroring the try/except); then drop rows
missing statistic, team or value (positions 2, 3, 4 of the expected
columns), coerce the value column, deduplicate and reset the index. -/
def cleanLeaderboardE (df : DFg) : Except String DFg :=
  if df.rows = [] ∨ df.cols = [] then Except.ok df
  else
    let dft : DFg := ⟨df.cols.take leaderboard_columns.length,
      df.rows.map (fun r => r.take leaderboard_columns.length)⟩
    if dft.cols.length ≠ leaderboard_columns.length then Except.ok dft
    else
      let rows1 := dft.rows.filter (fun r =>
        !(isNaB (r.getD 2 Val.na)) && !(isNaB (r.getD 3 Val.na)) &&
        !(isNaB (r.getD 4 Val.na)))
      let rows2 := rows1.map (fun r =>
        r.set 4 (coerceValue (valStr (r.getD 4 Val.na))))
      Except.ok ⟨leaderboard_columns, dedupList rows2⟩

/-- The per-name dispatch inside the loop of `process_dataframes`
(data_cleaner.py lines 184 to 199). -/
def cleanFor (nm : String) (df : DFg) : Except String DFg :=
  if nm = "team_standings" then cleanTeamStandingsE df
  else if nm = "hitters" ∨ nm = "pitchers" then
    (if nm = "hitters" then cleanHittersE df else cleanPitchersE df)
  else if nm = "hitter_leaderboard" ∨ nm = "pitcher_leaderboard" then
    cleanLeaderboardE df
  else Except.ok df

/-- One iteration of the `process_dataframes` loop: on success the cleaned
frame is appended to the output under its name; on an exception the error is
caught and nothing is appended (data_cleaner.py lines 184 to 201). -/
def cleanStep (acc : List (String × DFg)) (p : String × DFg) :
    List (String × DFg) :=
  match cleanFor p.1 p.2 with
  | Except.ok d => acc ++ [(p.1, d)]
  | Except.error _ => acc

/-- `process_dataframes` (data_cleaner.py lines 176 to 203), the named
dataframes given as an association list in dict order. -/
def process_dataframes (dfs : List (String × DFg)) : List (String × DFg) :=
  dfs.foldl cleanStep []

/-! ## Width reconciler (data_cleaner.py, load_csv_with_fallback) -/

/-- Reconciling one stored line against the expected width
(data_cleaner.py lines 153 to 165): strip the line, split on every comma,
truncate extra trailing fields or pad with empty strings. -/
def reconcileRow (maxColumns : Nat) (line : String) : List String :=
  let row := splitPy (pyStrip line) ','
  if maxColumns < row.length then row.take maxColumns
  else if row.length < maxColumns then
    row ++ List.replicate (maxColumns - row.length) ""
  else row

/-- `load_csv_with_fallback` (data_cleaner.py lines 138 to 173): every line
of the file, the first included, is reconciled to the expected width, and the
resulting frame labels each row positionally with the expected column names
(modelled as the name-field pairing of each row). -/
def load_csv_with_fallback (expectedColumns : List String)
    (lines : List String) : List (List (String × String)) :=
  (lines.map (reconcileRow expectedColumns.length)).map
    (fun r => expectedColumns.zip r)

/-! ## Helper lemmas about the record assembler -/

lemma recSet_self (r : RowRecord) (key v : String) :
    recSet r key v key = some v := by
  simp [recSet]

lemma recSet_ne (r : RowRecord) (key v k : String) (h : k ≠ key) :
    recSet r key v k = r k := by
  simp [recSet, h]

lemma trSet_self (tr : Tracker) (i : Nat) (e : RowspanEntry) :
    trSet tr i e i = some e := by
  simp [trSet]

lemma trSet_ne (tr : Tracker) (i : Nat) (e : RowspanEntry) (j : Nat)
    (h : j ≠ i) : trSet tr i e j = tr j := by
  simp [trSet, h]

lemma trInstall_ne (tr : Tracker) (hIdx : Nat) (c : Cell) (j : Nat)
    (h : j ≠ hIdx) : trInstall tr hIdx c j = tr j := by
  unfold trInstall
  cases c.rowspan with
  | none => rfl
  | some rs =>
      by_cases hd : pyIsDigit rs
      · simp [hd, trSet_ne _ _ _ _ h]
      · simp [hd]

lemma trDec_ne (tr : Tracker) (i j : Nat) (h : j ≠ i) :
    trDec tr i j = tr j := by
  unfold trDec
  cases tr i with
  | none => rfl
  | some e => exact trSet_ne _ _ _ _ h

lemma stepCell_tracker_ne (cells : List Cell) (prev : RowRecord)
    (header : String) (hIdx cIdx : Nat) (tr : Tracker) (acc : RowRecord)
    (j : Nat) (h : j ≠ hIdx) :
    (stepCell cells prev header hIdx cIdx tr acc).2.1 j = tr j := by
  unfold stepCell
  by_cases hc : cells.length ≤ cIdx
  · simp [hc]
  · simp [hc, trInstall_ne _ _ _ _ h]

lemma stepAt_tracker_ne (cells : List Cell) (division : Option String)
    (prev : RowRecord) (header : String) (hIdx cIdx : Nat) (tr : Tracker)
    (acc : RowRecord) (j : Nat) (h : j ≠ hIdx) :
    (stepAt cells division prev header hIdx cIdx tr acc).2.1 j = tr j := by
  unfold stepAt
  by_cases hd : header = "Division" ∧ optTruthy division = true
  · simp [hd]
  · by_cases hl : trackerLive tr hIdx = true
    · simp [hd, hl, trDec_ne _ _ _ h]
    · simp [hd, hl, stepCell_tracker_ne _ _ _ _ _ _ _ _ h]

lemma stepAt_rec_ne (cells : List Cell) (division : Option String)
    (prev : RowRecord) (header : String) (hIdx cIdx : Nat) (tr : Tracker)
    (acc : RowRecord) (k : String) (h : k ≠ header) :
    (stepAt cells division prev header hIdx cIdx tr acc).1 k = acc k := by
  unfold stepAt
  by_cases hd : header = "Division" ∧ optTruthy division = true
  · have : k ≠ "Division" := by rw [← hd.1]; exact h
    simp [hd, recSet_ne _ _ _ _ this]
  · by_cases hl : trackerLive tr hIdx = true
    · simp [hd, hl, recSet_ne _ _ _ _ h]
    · unfold stepCell
      by_cases hc : cells.length ≤ cIdx
      · simp [hd, hl, hc, recSet_ne _ _ _ _ h]
      · simp [hd, hl, hc, recSet_ne _ _ _ _ h]

lemma stepAt_live (cells : List Cell) (division : Option String)
    (prev : RowRecord) (header : String) (hIdx cIdx : Nat) (tr : Tracker)
    (acc : RowRecord) (v : String) (r : Int)
    (htr : tr hIdx = some ⟨v, r⟩) (hr : 0 < r)
    (hnd : ¬(header = "Division" ∧ optTruthy division = true)) :
    stepAt cells division prev header hIdx cIdx tr acc =
      (recSet acc header v, trSet tr hIdx ⟨v, r - 1⟩, cIdx) := by
  have hl : trackerLive tr hIdx = true := by
    simp [trackerLive, htr, hr]
  unfold stepAt
  simp [hnd, hl, trackerValue, trDec, htr]

lemma stepAt_exhaust (cells : List Cell) (division : Option String)
    (prev : RowRecord) (header : String) (hIdx cIdx : Nat) (tr : Tracker)
    (acc : RowRecord)
    (hc : cells.length ≤ cIdx)
    (hl : trackerLive tr hIdx = false)
    (hnd : ¬(header = "Division" ∧ optTruthy division = true)) :
    stepAt cells division prev header hIdx cIdx tr acc =
      (recSet acc header ((prev header).getD ""), tr, cIdx) := by
  unfold stepAt stepCell
  simp [hnd, hl, hc]

lemma stepAt_cIdx_exhaust (cells : List Cell) (division : Option String)
    (prev : RowRecord) (header : String) (hIdx cIdx : Nat) (tr : Tracker)
    (acc : RowRecord) (hc : cells.length ≤ cIdx) :
    (stepAt cells division prev header hIdx cIdx tr acc).2.2 = cIdx := by
  unfold stepAt stepCell
  by_cases hd : header = "Division" ∧ optTruthy division = true
  · simp [hd]
  · by_cases hl : trackerLive tr hIdx = true
    · simp [hd, hl]
    · simp [hd, hl, hc]

/-- Positions of the assembly loop never touch tracker indices below the
current header index. -/
lemma assembleAux_tracker_lt (cells : List Cell) (division : Option String)
    (prev : RowRecord) :
    ∀ (hs : List String) (hIdx cIdx : Nat) (tr : Tracker) (acc : RowRecord)
      (j : Nat), j < hIdx →
      (assembleAux cells division prev hs hIdx cIdx tr acc).2 j = tr j := by
  intro hs
  induction hs with
  | nil => intro hIdx cIdx tr acc j _; rfl
  | cons header hs ih =>
      intro hIdx cIdx tr acc j hj
      rw [assembleAux]
      rw [ih (hIdx + 1) _ _ _ j (by omega)]
      exact stepAt_tracker_ne _ _ _ _ _ _ _ _ _ (by omega)

/-- The assembled record is unchanged at any key that is not one of the
remaining header names. -/
lemma assembleAux_rec_stable (cells : List Cell) (division : Option String)
    (prev : RowRecord) :
    ∀ (hs : List String) (hIdx cIdx : Nat) (tr : Tracker) (acc : RowRecord)
      (k : String), k ∉ hs →
      (assembleAux cells division prev hs hIdx cIdx tr acc).1 k = acc k := by
  intro hs
  induction hs with
  | nil => intro hIdx cIdx tr acc k _; rfl
  | cons header hs ih =>
      intro hIdx cIdx tr acc k hk
      rw [assembleAux]
      rw [ih (hIdx + 1) _ _ _ k (fun h => hk (List.mem_cons_of_mem _ h))]
      exact stepAt_rec_ne _ _ _ _ _ _ _ _ _
        (fun h => hk (h ▸ List.mem_cons_self _ _))

/-- Core rowspan lemma: if the tracker entry at absolute position
`hIdx + j` is live when a data row is assembled, and the header name at
relative position `j` is not the active Division column and does not recur
later in the header list, then the assembled record carries the stored value
at that name and the tracker entry survives with its count decremented. -/
lemma assembleAux_rowspan (cells : List Cell) (division : Option String)
    (prev : RowRecord) :
    ∀ (hs : List String) (j hIdx cIdx : Nat) (tr : Tracker) (acc : RowRecord)
      (name v : String) (r : Int),
      hs.get? j = some name →
      name ∉ hs.drop (j + 1) →
      ¬(name = "Division" ∧ optTruthy division = true) →
      tr (hIdx + j) = some ⟨v, r⟩ → 0 < r →
      (assembleAux cells division prev hs hIdx cIdx tr acc).1 name = some v ∧
      (assembleAux cells division prev hs hIdx cIdx tr acc).2 (hIdx + j) =
        some ⟨v, r - 1⟩ := by
  intro hs
  induction hs with
  | nil =>
      intro j hIdx cIdx tr acc name v r hget _ _ _ _
      simp [List.get?] at hget
  | cons header hs ih =>
      intro j hIdx cIdx tr acc name v r hget hdrop hnd htr hr
      cases j with
      | zero =>
          have hh : header = name := by simpa using hget
          subst hh
          have hdrop' : header ∉ hs := by simpa using hdrop
          have htr' : tr hIdx = some ⟨v, r⟩ := by simpa using htr
          rw [assembleAux, stepAt_live cells division prev header hIdx cIdx tr
            acc v r htr' hr hnd]
          constructor
          · rw [assembleAux_rec_stable cells division prev hs _ _ _ _ _ hdrop']
            exact recSet_self _ _ _
          · rw [assembleAux_tracker_lt cells division prev hs _ _ _ _ _
              (by omega)]
            simpa using trSet_self tr hIdx ⟨v, r - 1⟩
      | succ j =>
          rw [assembleAux]
          have hget' : hs.get? j = some name := by simpa using hget
          have hdrop' : name ∉ hs.drop (j + 1) := by
            simpa [List.drop_succ_cons] using hdrop
          have htr' :
              (stepAt cells division prev header hIdx cIdx tr acc).2.1
                ((hIdx + 1) + j) = some ⟨v, r⟩ := by
            rw [stepAt_tracker_ne _ _ _ _ _ _ _ _ _ (by omega)]
            rw [show hIdx + 1 + j = hIdx + (j + 1) by omega]
            exact htr
          have := ih j (hIdx + 1)
            (stepAt cells division prev header hIdx cIdx tr acc).2.2
            (stepAt cells division prev header hIdx cIdx tr acc).2.1
            (stepAt cells division prev header hIdx cIdx tr acc).1
            name v r hget' hdrop' hnd htr' hr
          refine ⟨this.1, ?_⟩
          have h2 := this.2
          rwa [show hIdx + 1 + j = hIdx + (j + 1) by omega] at h2

/-- Core ragged-row lemma: once the physical-cell cursor is exhausted, a
header position whose name is not the active Division column, has no live
rowspan entry, and does not recur later, is filled from the previous record
(empty string when absent). -/
lemma assembleAux_ragged (cells : List Cell) (division : Option String)
    (prev : RowRecord) :
    ∀ (hs : List String) (j hIdx cIdx : Nat) (tr : Tracker) (acc : RowRecord)
      (name : String),
      hs.get? j = some name →
      name ∉ hs.drop (j + 1) →
      ¬(name = "Division" ∧ optTruthy division = true) →
      trackerLive tr (hIdx + j) = false →
      cells.length ≤ cIdx →
      (assembleAux cells division prev hs hIdx cIdx tr acc).1 name =
        some ((prev name).getD "") := by
  intro hs
  induction hs with
  | nil =>
      intro j hIdx cIdx tr acc name hget _ _ _ _
      simp [List.get?] at hget
  | cons header hs ih =>
      intro j hIdx cIdx tr acc name hget hdrop hnd hlive hc
      cases j with
      | zero =>
          have hh : header = name := by simpa using hget
          subst hh
          have hdrop' : header ∉ hs := by simpa using hdrop
          have hlive' : trackerLive tr hIdx = false := by simpa using hlive
          rw [assembleAux, stepAt_exhaust cells division prev header hIdx cIdx
            tr acc hc hlive' hnd]
          rw [assembleAux_rec_stable cells division prev hs _ _ _ _ _ hdrop']
          exact recSet_self _ _ _
      | succ j =>
          rw [assembleAux]
          have hget' : hs.get? j = some name := by simpa using hget
          have hdrop' : name ∉ hs.drop (j + 1) := by
            simpa [List.drop_succ_cons] using hdrop
          have hcIdx :
              (stepAt cells division prev header hIdx cIdx tr acc).2.2 =
                cIdx :=
            stepAt_cIdx_exhaust _ _ _ _ _ _ _ _ hc
          have hlive' :
              trackerLive
                ((stepAt cells division prev header hIdx cIdx tr acc).2.1)
                ((hIdx + 1) + j) = false := by
            unfold trackerLive
            rw [stepAt_tracker_ne _ _ _ _ _ _ _ _ _ (by omega)]
            rw [show hIdx + 1 + j = hIdx + (j + 1) by omega]
            unfold trackerLive at hlive
            exact hlive
          have := ih j (hIdx + 1)
            (stepAt cells division prev header hIdx cIdx tr acc).2.2
            (stepAt cells division prev header hIdx cIdx tr acc).2.1
            (stepAt cells division prev header hIdx cIdx tr acc).1
            name hget' hdrop' hnd hlive' (by rw [hcIdx]; exact hc)
          exact this

/-- A banner row leaves everything but the header list and the division
unchanged: in particular the rowspan tracker survives. -/
lemma processRow_banner (st : ScrapeState) (cells : List Cell)
    (h : isBanner cells = true) :
    processRow st cells =
      { st with headers := (bannerAux cells [] none).1,
                division := (bannerAux cells [] none).2 } := by
  simp [processRow, h]

/-- A data row leaves the header list and the division unchanged and appends
exactly the assembled record. -/
lemma processRow_data (st : ScrapeState) (cells : List Cell)
    (h : isBanner cells = false) :
    processRow st cells =
      { st with
        tracker := (assembleAux cells st.division st.prev st.headers 0 0
          st.tracker (fun _ => none)).2,
        prev := (assembleAux cells st.division st.prev st.headers 0 0
          st.tracker (fun _ => none)).1,
        dataRows := st.dataRows ++ [(assembleAux cells st.division st.prev
          st.headers 0 0 st.tracker (fun _ => none)).1] } := by
  simp [processRow, h]

lemma runRows_cons (st : ScrapeState) (row : List Cell)
    (rows : List (List Cell)) :
    runRows st (row :: rows) = runRows (processRow st row) rows := rfl

/-- Claim C1 (amended): when the rowspan tracker holds an entry at header
position `j` with `remaining = k > 0` (`k` the number of upcoming data rows,
as at the entry's creation by `trInstall`), the stored value is reproduced at
the header name of position `j` in each of those `k` immediately following
data-row records, `remaining` reaching zero; but the entry is then still
present in the tracker with `remaining = 0` rather than being removed — the
source never deletes tracker entries, the `remaining > 0` guard merely stops
applying them. -/
theorem c1_rowspan_carry :
    ∀ (rows : List (List Cell)) (st : ScrapeState) (j : Nat)
      (name v : String),
      (∀ r ∈ rows, isBanner r = false) →
      st.headers.get? j = some name →
      name ∉ st.headers.drop (j + 1) →
      ¬(name = "Division" ∧ optTruthy st.division = true) →
      st.tracker j = some ⟨v, (rows.length : Int)⟩ →
      ∃ recs, (runRows st rows).dataRows = st.dataRows ++ recs ∧
        recs.length = rows.length ∧
        (∀ rec ∈ recs, rec name = some v) ∧
        (runRows st rows).tracker j = some ⟨v, 0⟩ := by
  intro rows
  induction rows with
  | nil =>
      intro st j name v _ _ _ _ htr
      exact ⟨[], by simp [runRows], rfl, by simp, by simpa using htr⟩
  | cons row rest ih =>
      intro st j name v hb hget hdrop hnd htr
      have hbr : isBanner row = false := hb row (List.mem_cons_self _ _)
      have hM := assembleAux_rowspan row st.division st.prev st.headers j 0 0
        st.tracker (fun _ => none) name v ((row :: rest).length : Int)
        hget hdrop hnd (by simpa using htr)
        (by exact_mod_cast Nat.succ_pos rest.length)
      have hrem : ((row :: rest).length : Int) - 1 = (rest.length : Int) := by
        simp only [List.length_cons]
        push_cast
        omega
      rw [runRows_cons, processRow_data st row hbr]
      have hrec := hM.1
      have htr2 := hM.2
      rw [hrem] at htr2
      obtain ⟨recs, hdr, hlen, hmem, htrf⟩ := ih
        { st with
          tracker := (assembleAux row st.division st.prev st.headers 0 0
            st.tracker (fun _ => none)).2,
          prev := (assembleAux row st.division st.prev st.headers 0 0
            st.tracker (fun _ => none)).1,
          dataRows := st.dataRows ++ [(assembleAux row st.division st.prev
            st.headers 0 0 st.tracker (fun _ => none)).1] }
        j name v (fun r hr => hb r (List.mem_cons_of_mem _ hr)) hget hdrop hnd
        (by simpa using htr2)
      refine ⟨(assembleAux row st.division st.prev st.headers 0 0 st.tracker
        (fun _ => none)).1 :: recs, ?_, by simpa using hlen, ?_, htrf⟩
      · rw [hdr]
        simp
      · intro rec hrc
        rcases List.mem_cons.mp hrc with h | h
        · rw [h]; exact hrec
        · exact hmem rec h

/-! ## Claim theorems -/

/-- Concrete table for the C1 counterexample: a banner declaring headers
`Team` and `wins`, a data row whose first cell has `rowspan = "2"`
(installing a tracker entry with `remaining = 1`), and one further data row
that consumes the carried value. -/
def c1rows : List (List Cell) :=
  [[⟨"Team", "banner", none⟩, ⟨"W", "banner", none⟩],
   [⟨"Yankees", "", some "2"⟩, ⟨"100", "", none⟩],
   [⟨"99", "", none⟩]]

/-- Claim C1 counterexample: after the carried value has been applied to the
one following data row (`remaining` has reached zero), the tracker entry at
header position 0 is still present, with `remaining = 0` — it is not removed
from the rowspan state, contradicting the claim that the entry is absent
once `remaining` reaches zero. -/
theorem c1_counterexample :
    (runRows initState c1rows).tracker 0 = some ⟨"Yankees", 0⟩ ∧
    (runRows initState c1rows).tracker 0 ≠ none := by
  decide

/-- Concrete start state for the C1 witness: headers `Team`, `wins`, and a
live tracker entry at position 0 with `remaining = 1`. -/
def c1State : ScrapeState :=
  ⟨["Team", "wins"], none,
   fun i => if i = 0 then some ⟨"Yankees", 1⟩ else none,
   fun _ => none, []⟩

theorem c1_witness :
    (runRows c1State [[⟨"99", "", none⟩]]).tracker 0 =
      some ⟨"Yankees", 0⟩ := by
  obtain ⟨recs, _, _, _, h⟩ := c1_rowspan_carry [[⟨"99", "", none⟩]] c1State 0
    "Team" "Yankees" (by decide) (by decide) (by decide) (by decide)
    (by decide)
  exact h

/-- Concrete table for the C2 end-to-end example of the spec: banner headers
`Team`, `Wins`, `Losses`; a full data row; then a ragged row with a single
physical cell. -/
def c2rows : List (List Cell) :=
  [[⟨"Team", "banner", none⟩, ⟨"Wins", "banner", none⟩,
    ⟨"Losses", "banner", none⟩],
   [⟨"Yankees", "", none⟩, ⟨"100", "", none⟩, ⟨"62", "", none⟩],
   [⟨"Red Sox", "", none⟩]]

/-- Claim C2: in a ragged short row, a header position reached after the
physical-cell cursor is exhausted (and that is neither the active Division
column nor covered by a live rowspan entry, and whose name does not recur
later) is filled with the previous record's value at that header name, the
empty string when absent; and the spec's end-to-end example holds: after
headers `Team`/`Wins`/`Losses` and the row `Yankees, 100, 62`, the ragged
row with the single cell `Red Sox` assembles to
`Team = Red Sox, Wins = 100, Losses = 62`. -/
theorem c2_ragged_fallback :
    (∀ (cells : List Cell) (division : Option String) (prev : RowRecord)
       (hs : List String) (j hIdx cIdx : Nat) (tr : Tracker)
       (acc : RowRecord) (name : String),
       hs.get? j = some name →
       name ∉ hs.drop (j + 1) →
       ¬(name = "Division" ∧ optTruthy division = true) →
       trackerLive tr (hIdx + j) = false →
       cells.length ≤ cIdx →
       (assembleAux cells division prev hs hIdx cIdx tr acc).1 name =
         some ((prev name).getD "")) ∧
    (runRows initState c2rows).dataRows.length = 2 ∧
    ((runRows initState c2rows).dataRows.getD 1 (fun _ => none)) "Team" =
      some "Red Sox" ∧
    ((runRows initState c2rows).dataRows.getD 1 (fun _ => none)) "Wins" =
      some "100" ∧
    ((runRows initState c2rows).dataRows.getD 1 (fun _ => none)) "Losses" =
      some "62" := by
  refine ⟨fun cells division prev hs j hIdx cIdx tr acc name hget hdrop hnd
    hlive hc => assembleAux_ragged cells division prev hs j hIdx cIdx tr acc
      name hget hdrop hnd hlive hc, ?_, ?_, ?_, ?_⟩ <;> decide

theorem c2_witness :
    (assembleAux [] none (recSet (fun _ => none) "Wins" "100") ["Wins"] 0 0
      (fun _ => none) (fun _ => none)).1 "Wins" = some "100" := by
  have h := c2_ragged_fallback.1 [] none
    (recSet (fun _ => none) "Wins" "100") ["Wins"] 0 0 0 (fun _ => none)
    (fun _ => none) "Wins" (by decide) (by decide) (by decide) (by decide)
    (by decide)
  simpa [recSet] using h

/-- Claim C3 counterexample: a table whose caption contains `team review`
(case-insensitively) but whose subcaption contains neither `hitting` nor
`pitching` is NOT dropped — at page position 0 the positional fallback
assigns it to the season batting summary slot. -/
theorem c3_counterexample :
    classifyTable "2019 Team Review" "Misc" 0 = some TableKind.hitters := by
  decide

/-- Claim C3 (amended): the content-based leaderboard check does take
precedence over the positional fallback — a team-review caption with a
`hitting` (or, failing that, `pitching`) subcaption classifies as the
corresponding leaderboard at any page position; but a team-review caption
with neither keyword is not dropped: it falls through to the positional
rules and can be assigned a summary or standings kind by its position. -/
theorem c3_classification_precedence :
    ∀ (title subtitle : String) (idx : Nat),
      pyContains (pyLower title) "team review" = true →
      (pyContains (pyLower subtitle) "hitting" = true →
        classifyTable title subtitle idx =
          some TableKind.hitter_leaderboard) ∧
      (pyContains (pyLower subtitle) "hitting" = false →
        pyContains (pyLower subtitle) "pitching" = true →
        classifyTable title subtitle idx =
          some TableKind.pitcher_leaderboard) ∧
      (pyContains (pyLower subtitle) "hitting" = false →
        pyContains (pyLower subtitle) "pitching" = false →
        classifyTable title subtitle idx =
          (if idx = 0 then some TableKind.hitters
           else if idx = 1 then some TableKind.pitchers
           else if idx = 2 ∧ pyContains (pyLower title ++ pyLower subtitle)
               "team standings" = true then some TableKind.team_standings
           else none)) := by
  intro title subtitle idx ht
  refine ⟨fun hh => ?_, fun hh hp => ?_, fun hh hp => ?_⟩
  · simp +decide [classifyTable, pitcher_or_hitter, ht, hh]
  · simp +decide [classifyTable, pitcher_or_hitter, ht, hh, hp]
  · simp +decide [classifyTable, pitcher_or_hitter, ht, hh, hp]

theorem c3_witness :
    classifyTable "2019 Team Review" "Team Pitching Statistics" 7 =
      some TableKind.pitcher_leaderboard := by
  have h := (c3_classification_precedence "2019 Team Review"
    "Team Pitching Statistics" 7 (by decide)).2.1
  exact h (by decide) (by decide)

/-- Claim C4: the standings misalignment repair.  A record whose team/roster
field is missing or empty and whose wins field holds a (non-numeric) string
is shifted one position right to left, team/roster receiving the original
wins value and games_behind becoming empty; a record whose team/roster field
is `East` or `West` is left untouched. -/
theorem c4_shift_repair :
    (∀ (v0 v1 l wp gb tr0 : Val) (ws : String),
      (tr0 = Val.na ∨ tr0 = Val.s "") →
      pyIsNumeric ws = false →
      fixRowE team_standings_columns [v0, v1, tr0, Val.s ws, l, wp, gb] =
        Except.ok [v0, v1, Val.s ws, l, wp, gb, Val.na]) ∧
    (∀ (v0 v1 w l wp gb : Val) (d : String), (d = "East" ∨ d = "West") →
      fixRowE team_standings_columns [v0, v1, Val.s d, w, l, wp, gb] =
        Except.ok [v0, v1, Val.s d, w, l, wp, gb]) := by
  constructor
  · intro v0 v1 l wp gb tr0 ws h _
    rcases h with h | h <;> subst h <;> rfl
  · intro v0 v1 w l wp gb d h
    rcases h with h | h <;> subst h <;> rfl

theorem c4_witness :
    fixRowE team_standings_columns
      [Val.s "17", Val.s "1901", Val.na, Val.s "Boston Red Sox",
       Val.s "79", Val.s ".610", Val.s "2½"] =
    Except.ok [Val.s "17", Val.s "1901", Val.s "Boston Red Sox",
      Val.s "79", Val.s ".610", Val.s "2½", Val.na] :=
  c4_shift_repair.1 (Val.s "17") (Val.s "1901") (Val.s "79") (Val.s ".610")
    (Val.s "2½") Val.na "Boston Red Sox" (Or.inl rfl) (by decide)

/-- Claim C5 (amended): a banner row rebuilds the header list entirely from
that banner row alone and clears the group label before its cells are
processed — the result does not depend on the prior state; but the rebuilt
header list may contain duplicate names, since every banner cell appends and
nothing deduplicates. -/
theorem c5_banner_rebuild :
    ∀ (st st2 : ScrapeState) (cells : List Cell),
      isBanner cells = true →
      (processRow st cells).headers = (bannerAux cells [] none).1 ∧
      (processRow st cells).division = (bannerAux cells [] none).2 ∧
      (processRow st cells).headers = (processRow st2 cells).headers ∧
      (processRow st cells).division = (processRow st2 cells).division := by
  intro st st2 cells h
  rw [processRow_banner st cells h, processRow_banner st2 cells h]
  exact ⟨rfl, rfl, rfl, rfl⟩

/-- Claim C5 counterexample: a banner row with two cells that both normalize
to `wins` produces a header list with a duplicate name. -/
theorem c5_counterexample :
    (processRow initState
      [⟨"W", "banner", none⟩, ⟨"W", "banner", none⟩]).headers =
      ["wins", "wins"] ∧
    ¬ (processRow initState
      [⟨"W", "banner", none⟩, ⟨"W", "banner", none⟩]).headers.Nodup := by
  decide

theorem c5_witness :
    (processRow ⟨["Old"], some "East", fun _ => none, fun _ => none, []⟩
      [⟨"Team", "banner", none⟩]).headers = ["Team"] ∧
    (processRow ⟨["Old"], some "East", fun _ => none, fun _ => none, []⟩
      [⟨"Team", "banner", none⟩]).division = none := by
  have h := c5_banner_rebuild
    ⟨["Old"], some "East", fun _ => none, fun _ => none, []⟩ initState
    [⟨"Team", "banner", none⟩] (by decide)
  refine ⟨?_, ?_⟩
  · rw [h.1]; decide
  · rw [h.2.1]; decide

/-- Claim C10: a banner row does not clear the rowspan tracker — the tracker
after a banner row is the prior tracker unchanged — and a live entry at
position `j` installed before the banner is applied to a data row assembled
after the banner, at the same positional index under the new header list. -/
theorem c10_banner_preserves_tracker :
    ∀ (st : ScrapeState) (b d : List Cell) (j : Nat) (name v : String)
      (r : Int),
      isBanner b = true →
      isBanner d = false →
      (processRow st b).tracker = st.tracker ∧
      ((bannerAux b [] none).1.get? j = some name →
       name ∉ (bannerAux b [] none).1.drop (j + 1) →
       ¬(name = "Division" ∧ optTruthy (bannerAux b [] none).2 = true) →
       st.tracker j = some ⟨v, r⟩ → 0 < r →
       ∃ rec, (processRow (processRow st b) d).dataRows =
           (processRow st b).dataRows ++ [rec] ∧
         rec name = some v ∧
         (processRow (processRow st b) d).tracker j = some ⟨v, r - 1⟩) := by
  intro st b d j name v r hb hd
  constructor
  · rw [processRow_banner st b hb]
  · intro hget hdrop hnd htr hr
    have hM := assembleAux_rowspan d (bannerAux b [] none).2 st.prev
      (bannerAux b [] none).1 j 0 0 st.tracker (fun _ => none) name v r
      hget hdrop hnd (by simpa using htr) hr
    rw [processRow_banner st b hb, processRow_data _ d hd]
    refine ⟨(assembleAux d (bannerAux b [] none).2 st.prev
      (bannerAux b [] none).1 0 0 st.tracker (fun _ => none)).1,
      by simp, by simpa using hM.1, by simpa using hM.2⟩

/-- Concrete start state for the C10 witness: a live tracker entry with
`remaining = 2` installed before the banner. -/
def c10State : ScrapeState :=
  ⟨["Old"], none, fun i => if i = 0 then some ⟨"NY", 2⟩ else none,
   fun _ => none, []⟩

theorem c10_witness :
    (processRow c10State [⟨"Team", "banner", none⟩]).tracker 0 =
      some ⟨"NY", 2⟩ ∧
    (processRow (processRow c10State [⟨"Team", "banner", none⟩])
      [⟨"x", "", none⟩]).tracker 0 = some ⟨"NY", 1⟩ := by
  obtain ⟨h1, h2⟩ := c10_banner_preserves_tracker c10State
    [⟨"Team", "banner", none⟩] [⟨"x", "", none⟩] 0 "Team" "NY" 2
    (by decide) (by decide)
  obtain ⟨rec, _, _, h3⟩ := h2 (by decide) (by decide) (by decide)
    (by decide) (by decide)
  exact ⟨by rw [h1]; decide, h3⟩

/-- `coerceValue` on the spec's quoted thousands example. -/
lemma coerceValue_example : coerceValue "\"1,234\"" = Val.num 1234 := by
  decide

/-- Claim C6: leaderboard cleaning coerces a value field reading `"1,234"`
(quotes included) to the number 1234 after stripping commas, quotes and
whitespace; coerces a non-numeric value token to a missing numeric value
while keeping the record and its other fields; and drops a record missing
its statistic, team or value field. -/
theorem c6_leaderboard_coercion :
    (∀ (v0 v1 : Val) (a b : String),
      cleanLeaderboardE ⟨leaderboard_columns,
        [[v0, v1, Val.s a, Val.s b, Val.s "\"1,234\""]]⟩ =
      Except.ok ⟨leaderboard_columns,
        [[v0, v1, Val.s a, Val.s b, Val.num 1234]]⟩) ∧
    (∀ (v0 v1 : Val) (a b s : String), coerceValue s = Val.na →
      cleanLeaderboardE ⟨leaderboard_columns,
        [[v0, v1, Val.s a, Val.s b, Val.s s]]⟩ =
      Except.ok ⟨leaderboard_columns,
        [[v0, v1, Val.s a, Val.s b, Val.na]]⟩) ∧
    (∀ (v0 v1 v2 v3 v4 : Val),
      (v2 = Val.na ∨ v3 = Val.na ∨ v4 = Val.na) →
      cleanLeaderboardE ⟨leaderboard_columns, [[v0, v1, v2, v3, v4]]⟩ =
      Except.ok ⟨leaderboard_columns, []⟩) := by
  refine ⟨?_, ?_, ?_⟩
  · intro v0 v1 a b
    simp [cleanLeaderboardE, leaderboard_columns, isNaB, valStr,
      coerceValue_example, dedupList, dedupAux]
  · intro v0 v1 a b s hcv
    simp [cleanLeaderboardE, leaderboard_columns, isNaB, valStr, hcv,
      dedupList, dedupAux]
  · intro v0 v1 v2 v3 v4 h
    rcases h with h | h | h <;> subst h <;>
      simp [cleanLeaderboardE, leaderboard_columns, isNaB, dedupList,
        dedupAux]

theorem c6_witness :
    cleanLeaderboardE ⟨leaderboard_columns,
      [[Val.na, Val.na, Val.s "Home Runs", Val.s "BOS", Val.s "N/A"]]⟩ =
    Except.ok ⟨leaderboard_columns,
      [[Val.na, Val.na, Val.s "Home Runs", Val.s "BOS", Val.na]]⟩ :=
  c6_leaderboard_coercion.2.1 Val.na Val.na "Home Runs" "BOS" "N/A"
    (by decide)

/-- Claim C7: width reconciliation against an expected column list of width
N truncates a longer split row to its first N fields, pads a shorter one
with empty trailing fields up to N, always yields width exactly N, and
labels the reconciled row positionally with the expected column names. -/
theorem c7_width_reconciliation :
    ∀ (expectedColumns : List String) (line : String),
      (expectedColumns.length < (splitPy (pyStrip line) ',').length →
        reconcileRow expectedColumns.length line =
          (splitPy (pyStrip line) ',').take expectedColumns.length) ∧
      ((splitPy (pyStrip line) ',').length < expectedColumns.length →
        reconcileRow expectedColumns.length line =
          splitPy (pyStrip line) ',' ++
            List.replicate (expectedColumns.length -
              (splitPy (pyStrip line) ',').length) "") ∧
      (reconcileRow expectedColumns.length line).length =
        expectedColumns.length ∧
      (expectedColumns.zip (reconcileRow expectedColumns.length line)).map
        Prod.fst = expectedColumns ∧
      load_csv_with_fallback expectedColumns [line] =
        [expectedColumns.zip (reconcileRow expectedColumns.length line)] := by
  intro expectedColumns line
  have hlen : (reconcileRow expectedColumns.length line).length =
      expectedColumns.length := by
    simp only [reconcileRow]
    split_ifs with h1 h2
    · simp [List.length_take]
      omega
    · simp
      omega
    · omega
  refine ⟨fun h => ?_, fun h => ?_, hlen, ?_, ?_⟩
  · simp [reconcileRow, h]
  · have h2 : ¬ (expectedColumns.length <
        (splitPy (pyStrip line) ',').length) := by omega
    simp [reconcileRow, h, h2]
  · exact List.map_fst_zip _ _ (le_of_eq hlen.symm)
  · simp [load_csv_with_fallback]

theorem c7_witness :
    reconcileRow 7 "a,b,c,d,e,f,g,h,i" =
      ["a", "b", "c", "d", "e", "f", "g"] ∧
    reconcileRow 7 "a,b,c,d,e" = ["a", "b", "c", "d", "e", "", ""] := by
  have h1 := (c7_width_reconciliation team_standings_columns
    "a,b,c,d,e,f,g,h,i").1 (by decide)
  have h2 := (c7_width_reconciliation team_standings_columns
    "a,b,c,d,e").2.1 (by decide)
  exact ⟨h1.trans (by decide), h2.trans (by decide)⟩

/-- Claim C9: the width reconciler treats the first (persisted header) line
exactly like any data line, reconciling it into the first output record; and
lines are split on every comma with no quote handling, so a quoted field
containing a comma is split apart (the quoted middle field of
`a,"b,c",d` becomes the two fields `"b` and `c"`). -/
theorem c9_header_as_data :
    (∀ (expectedColumns : List String) (first : String)
       (rest : List String),
      load_csv_with_fallback expectedColumns (first :: rest) =
        expectedColumns.zip (reconcileRow expectedColumns.length first) ::
          load_csv_with_fallback expectedColumns rest) ∧
    reconcileRow 4 "a,\"b,c\",d" = ["a", "\"b", "c\"", "d"] := by
  refine ⟨fun expectedColumns first rest => ?_, by decide⟩
  simp [load_csv_with_fallback]

theorem c9_witness :
    load_csv_with_fallback ["id", "year"] ["id,year", "1,1901"] =
      ["id", "year"].zip (reconcileRow 2 "id,year") ::
        load_csv_with_fallback ["id", "year"] ["1,1901"] :=
  c9_header_as_data.1 ["id", "year"] "id,year" ["1,1901"]

/-- Unfolding the fold of `process_dataframes` over an arbitrary
accumulator. -/
lemma process_foldl :
    ∀ (dfs : List (String × DFg)) (acc : List (String × DFg)),
      dfs.foldl cleanStep acc =
        acc ++ dfs.filterMap (fun p =>
          match cleanFor p.1 p.2 with
          | Except.ok d => some (p.1, d)
          | Except.error _ => none) := by
  intro dfs
  induction dfs with
  | nil => intro acc; simp
  | cons p rest ih =>
      intro acc
      simp only [List.foldl_cons, List.filterMap_cons]
      cases h : cleanFor p.1 p.2 with
      | ok d =>
          rw [show cleanStep acc p = acc ++ [(p.1, d)] by
            simp [cleanStep, h]]
          rw [ih]
          simp
      | error e =>
          rw [show cleanStep acc p = acc by simp [cleanStep, h]]
          rw [ih]

/-- Claim C8 (amended): the repair layer is total — every exception raised
by a per-table cleaner is caught inside the loop, so nothing propagates past
it — but a named input table whose cleaner raises is omitted from the output
instead of contributing a cleaned table: the output is exactly the
filter-map of the per-name cleaners over the inputs. -/
theorem c8_pipeline_totality :
    ∀ (dfs : List (String × DFg)),
      process_dataframes dfs = dfs.filterMap (fun p =>
        match cleanFor p.1 p.2 with
        | Except.ok d => some (p.1, d)
        | Except.error _ => none) := by
  intro dfs
  rw [process_dataframes, process_foldl]
  simp

/-- Claim C8 counterexample: the empty standings dataframe (exactly what the
loader produces when the standings file fails to load) makes
`clean_team_standings` raise a `KeyError`, which `process_dataframes`
catches — and the output then contains no entry at all for the named input
table `team_standings`. -/
theorem c8_counterexample :
    cleanFor "team_standings" ⟨[], []⟩ = Except.error "KeyError" ∧
    process_dataframes [("team_standings", ⟨[], []⟩)] = [] :=
  ⟨rfl, rfl⟩

theorem c8_witness :
    process_dataframes [("hitters", ⟨["name", "team"], []⟩)] =
      [("hitters", ⟨["name", "team"], []⟩)] := by
  have h := c8_pipeline_totality [("hitters", ⟨["name", "team"], []⟩)]
  rw [h]
  rfl
